import Mathlib

/-!
Verification development for the auto-context loader of the
FatStinkyPanda/mcp-global-rules repository (scripts/autocontext.py) and for
the semantic-index contracts of its design document.

The Python code is shallowly embedded: the persisted cache file is modelled
as an optional JSON value (absent / unparsable / parsed), `json` values are a
small inductive type, Python `dict`s are insertion-ordered association lists,
and every fallible Python operation is an explicit `Except` or `Option`.
-/

namespace Autoctx

/-- A JSON value as produced by Python's `json.load` / consumed by
`json.dump`.  Object keys come from a real Python `dict`, hence are unique in
values actually produced by the code, but no uniqueness is assumed here. -/
inductive Json where
  | str (s : String)
  | num (n : Int)
  | arr (xs : List Json)
  | obj (kvs : List (String × Json))

/-- `ContextCache` (autocontext.py lines 23-37) with the field types the
dataclass declares.  `hot_files` is a Python `dict` (path -> access count),
modelled as an insertion-ordered association list. -/
structure ContextCache where
  recent_files : List String := []
  hot_files : List (String × Int) := []
  last_query : String := ""
  last_task : String := ""
  timestamp : String := ""
deriving DecidableEq, Repr

/-- The value `ContextCache.from_dict` actually builds: Python's
`cls(**data)` binds whatever JSON value each key carries, with NO type
validation, so each field is an arbitrary `Json` value here.  The defaults
are the dataclass defaults (empty list, empty dict, empty strings). -/
structure DynCache where
  recent_files : Json := Json.arr []
  hot_files : Json := Json.obj []
  last_query : Json := Json.str ""
  last_task : Json := Json.str ""
  timestamp : Json := Json.str ""

/-- The dataclass field names of `ContextCache`. -/
def cacheFieldNames : List String :=
  ["recent_files", "hot_files", "last_query", "last_task", "timestamp"]

/-- Last-occurrence lookup in a JSON object, matching `json.load`'s
last-key-wins behaviour followed by `dict` lookup. -/
def lookupLast (kvs : List (String × Json)) (k : String) : Option Json :=
  kvs.foldl (fun acc kv => if kv.1 = k then some kv.2 else acc) acc₀
where acc₀ : Option Json := none

/-- `ContextCache.from_dict` (line 35-37): `cls(**data)`.  It raises
`TypeError` (here: `none`) when `data` is not a dict or holds a key that is
not a dataclass field; otherwise every present field value is bound verbatim
and absent fields take their defaults.  No type checking happens. -/
def from_dict (j : Json) : Option DynCache :=
  match j with
  | Json.obj kvs =>
      if kvs.all (fun kv => cacheFieldNames.contains kv.1) then
        some
          { recent_files := (lookupLast kvs "recent_files").getD (Json.arr [])
            hot_files := (lookupLast kvs "hot_files").getD (Json.obj [])
            last_query := (lookupLast kvs "last_query").getD (Json.str "")
            last_task := (lookupLast kvs "last_task").getD (Json.str "")
            timestamp := (lookupLast kvs "timestamp").getD (Json.str "") }
      else none
  | _ => none

/-- The fresh empty cache `ContextCache()` as a `DynCache`. -/
def emptyDyn : DynCache := {}

/-- `load_cache` (lines 54-66) at the dynamic level.  The cache file is
`none` when absent (`cache_path.exists()` false), `some none` when present
but unreadable or not valid JSON (`json.load` raises, swallowed by the
blanket handler), and `some (some j)` when it parses to `j`.  A `TypeError`
raised by `from_dict` is also swallowed; in every failure case the fresh
empty cache is returned. -/
def load_cache_dyn (file : Option (Option Json)) : DynCache :=
  match file with
  | some (some j) => (from_dict j).getD emptyDyn
  | _ => emptyDyn

/-- Decode a JSON array of strings (the well-typed `recent_files` shape). -/
def decodeStrings : List Json → Option (List String)
  | [] => some []
  | Json.str s :: rest => (decodeStrings rest).map (fun l => s :: l)
  | _ => none

/-- Decode a JSON object of integers (the well-typed `hot_files` shape). -/
def decodeHotEntries : List (String × Json) → Option (List (String × Int))
  | [] => some []
  | (k, Json.num n) :: rest => (decodeHotEntries rest).map (fun l => (k, n) :: l)
  | _ => none

/-- View a JSON value as an array. -/
def asArr : Json → Option (List Json)
  | Json.arr xs => some xs
  | _ => none

/-- View a JSON value as an object. -/
def asObj : Json → Option (List (String × Json))
  | Json.obj kvs => some kvs
  | _ => none

/-- View a JSON value as a string. -/
def asStr : Json → Option String
  | Json.str s => some s
  | _ => none

/-- A `DynCache` viewed as the statically well-typed `ContextCache`, when
every field holds a value of the declared dataclass type. -/
def typedOf (d : DynCache) : Option ContextCache := do
  let rs ← asArr d.recent_files
  let hs ← asObj d.hot_files
  let q ← asStr d.last_query
  let t ← asStr d.last_task
  let ts ← asStr d.timestamp
  let rlist ← decodeStrings rs
  let hlist ← decodeHotEntries hs
  some ⟨rlist, hlist, q, t, ts⟩

/-- A well-typed cache as a `DynCache` (the image of dataclass values). -/
def dynOf (c : ContextCache) : DynCache :=
  { recent_files := Json.arr (c.recent_files.map Json.str)
    hot_files := Json.obj (c.hot_files.map (fun kv => (kv.1, Json.num kv.2)))
    last_query := Json.str c.last_query
    last_task := Json.str c.last_task
    timestamp := Json.str c.timestamp }

/-- `asdict` / `json.dump` of a cache value (line 32-33 and 77). -/
def DynCache.to_json (d : DynCache) : Json :=
  Json.obj
    [("recent_files", d.recent_files), ("hot_files", d.hot_files),
     ("last_query", d.last_query), ("last_task", d.last_task),
     ("timestamp", d.timestamp)]

/-- `ContextCache.to_dict` (lines 32-33). -/
def ContextCache.to_dict (c : ContextCache) : Json :=
  (dynOf c).to_json

/-- `load_cache` followed by use as a well-typed dataclass value: `some c`
when the Python caller receives a value of the declared field types, `none`
when it receives a cache carrying ill-typed field values (which Python
builds without complaint). -/
def loadTyped (file : Option (Option Json)) : Option ContextCache :=
  typedOf (load_cache_dyn file)

/-- The bytes `save_cache` (lines 69-77) leaves in the cache file: the
timestamp is rewritten to the time of saving, then `to_dict` is dumped. -/
def savedFile (c : ContextCache) (now : String) : Option (Option Json) :=
  some (some (ContextCache.to_dict { c with timestamp := now }))

/-- Python `str.isspace` characters relevant to `str.split()`:
space, tab, linefeed, return, vertical tab, form feed. -/
def isPySpace (ch : Char) : Bool :=
  ch = ' ' ∨ ch = '\t' ∨ ch = '\n' ∨ ch = '\r' ∨ ch = '\x0b' ∨ ch = '\x0c'

/-- Word counting over a character list: `inWord` records whether the
previous character belonged to a word. -/
def countWords : List Char → Bool → Nat
  | [], _ => 0
  | c :: cs, inWord =>
      if isPySpace c then countWords cs false
      else (if inWord then 0 else 1) + countWords cs true

/-- `len(content.split())`: the number of maximal whitespace-free runs. -/
def tokens (s : String) : Nat := countWords s.data false

/-- What the filesystem holds at one path: no file, a file whose `open` or
read raises (permission or encoding error), or a readable file given as its
list of lines (each line carrying its newline, as `readlines` yields). -/
inductive FileStat where
  | absent
  | unreadable
  | readable (lines : List String)
deriving DecidableEq, Repr

/-- `PurePath.is_absolute` for POSIX paths: the path starts with `/`. -/
def pyIsAbsolute (p : String) : Bool :=
  match p.data with
  | [] => false
  | c :: _ => c = '/'

/-- Lines 111-113: `Path(file_path)`, made absolute against `root` when
relative.  Path normalisation is immaterial to the claims and elided. -/
def resolvePath (root p : String) : String :=
  if pyIsAbsolute p then p else root ++ "/" ++ p

/-- Python `dict.get(k, d)` on an association list. -/
def dictGet (d : List (String × Int)) (k : String) (dflt : Int) : Int :=
  match d.find? (fun kv => kv.1 = k) with
  | some kv => kv.2
  | none => dflt

/-- Python `d[k] = v`: replace in place when the key is present, else append
(insertion order preserved, as for Python dicts). -/
def dictSet (d : List (String × Int)) (k : String) (v : Int) :
    List (String × Int) :=
  if d.any (fun kv => kv.1 = k)
  then d.map (fun kv => if kv.1 = k then (k, v) else kv)
  else d ++ [(k, v)]

/-- Python `list.remove(x)`: drop the first occurrence. -/
def pyRemoveFirst (xs : List String) (x : String) : List String :=
  match xs with
  | [] => []
  | y :: ys => if y = x then ys else y :: pyRemoveFirst ys x

/-- The in-memory mutation performed by `track_file_access` (lines 84-93):
move the path to the front of `recent_files` (first removing an existing
occurrence), truncate to 20 entries, and bump its `hot_files` count. -/
def track_update (c : ContextCache) (path : String) : ContextCache :=
  let r := if path ∈ c.recent_files
           then pyRemoveFirst c.recent_files path
           else c.recent_files
  { c with
    recent_files := (path :: r).take 20
    hot_files := dictSet c.hot_files path (dictGet c.hot_files path 0 + 1) }

/-- `ContextResult` (lines 40-45). -/
structure ContextResult where
  files : List (String × String)
  token_count : Nat
  source : String
deriving DecidableEq, Repr

/-- One iteration of the file loops in `get_recent_context` and
`get_hot_context` (lines 110-123 and 143-156): resolve the path; when the
file exists and is readable, read at most `maxLines` lines, else skip
(`exists()` false, or the blanket `except` swallows the read error). -/
def readEntry (fs : String → FileStat) (root : String) (maxLines : Nat)
    (p : String) : Option (String × String) :=
  let rp := resolvePath root p
  match fs rp with
  | FileStat.readable lines => some (rp, String.join (lines.take maxLines))
  | _ => none

/-- One step of the accumulation loop shared by `get_recent_context` and
`get_hot_context`: append a readable file and add its token count. -/
def contextStep (fs : String → FileStat) (root : String) (maxLines : Nat)
    (acc : List (String × String) × Nat) (p : String) :
    List (String × String) × Nat :=
  match readEntry fs root maxLines p with
  | some pc => (acc.1 ++ [pc], acc.2 + tokens pc.2)
  | none => acc

/-- The accumulation loop shared by `get_recent_context` and
`get_hot_context`. -/
def contextLoop (fs : String → FileStat) (root : String) (maxLines : Nat)
    (entries : List String) : List (String × String) × Nat :=
  entries.foldl (contextStep fs root maxLines) ([], 0)

/-- `get_recent_context` (lines 98-125) on an in-memory cache value. -/
def get_recent_result (c : ContextCache) (fs : String → FileStat)
    (limit maxLines : Nat) (root : String) : ContextResult :=
  let s := contextLoop fs root maxLines (c.recent_files.take limit)
  ⟨s.1, s.2, "recent"⟩

/-- Line 138: `sorted(cache.hot_files.items(), key=lambda x: x[1],
reverse=True)` — a stable descending sort on the access count. -/
def hotSorted (hot : List (String × Int)) : List (String × Int) :=
  List.insertionSort (fun a b => b.2 ≤ a.2) hot

/-- `get_hot_context` (lines 128-158) on an in-memory cache value. -/
def get_hot_result (c : ContextCache) (fs : String → FileStat)
    (limit maxLines : Nat) (root : String) : ContextResult :=
  let s := contextLoop fs root maxLines
    ((hotSorted c.hot_files).take limit |>.map (fun kv => kv.1))
  ⟨s.1, s.2, "hot"⟩

/-- Modelled from the spec: the Chunk of §3 — a contiguous span of one file
with `path`, 1-based `start_line`/`end_line` and raw `content` — as stored in
the vector index consumed by `get_semantic_context`; the repository's
`scripts/vector_store.py` is not among the provided sources. -/
structure Chunk where
  path : String
  start_line : Nat
  end_line : Nat
  content : String
deriving DecidableEq, Repr

/-- Modelled from the spec: the SearchResult of §3 — a chunk reference plus a
similarity score (higher = more similar), produced transiently per query. -/
structure SearchResult where
  chunk : Chunk
  score : Rat
deriving DecidableEq, Repr

/-- The ranking key of §4.7: greater score first, ties ascending by
`(path, start_line)`. -/
def sortKey (a : SearchResult) : Rat ×ₗ (String ×ₗ Nat) :=
  toLex (-a.score, toLex (a.chunk.path, a.chunk.start_line))

/-- The total preorder that orders search results. -/
def rankLE (a b : SearchResult) : Prop := sortKey a ≤ sortKey b

instance : IsTotal SearchResult rankLE := ⟨fun a b => le_total (sortKey a) (sortKey b)⟩

instance : IsTrans SearchResult rankLE := ⟨fun _ _ _ h h' => le_trans h h'⟩

instance : DecidableRel rankLE :=
  fun a b => inferInstanceAs (Decidable (sortKey a ≤ sortKey b))

/-- Modelled from the spec: Similarity Search §4.7, `search(query_text, k)`,
whose implementation (`scripts/vector_store.py`) is not among the provided
sources.  Scoring each stored chunk against the embedded query (cosine
similarity through the external Embedding Provider) is abstracted as the
function `score`; the ranking contract itself — order all entries by score
descending with ties ascending by `(path, start_line)`, return the first
`k` — is modelled concretely. -/
def search (score : Chunk → Rat) (entries : List Chunk) (k : Nat) :
    List SearchResult :=
  (List.insertionSort rankLE (entries.map (fun c => ⟨c, score c⟩))).take k

/-- The state of the persisted vector index as `get_semantic_context` (lines
172-183) observes it: the `import`/constructor/`store.load()`/`store.search`
sequence raised (any such exception is swallowed), or `store.load()` returned
False (no index), or the index loaded with the given entries and query
scoring. -/
inductive StoreOutcome where
  | failure
  | notLoaded
  | loaded (score : Chunk → Rat) (entries : List Chunk)

/-- The process-visible state: the persisted context-cache file, the
readable file tree, and the vector index. -/
structure SysState where
  cacheFile : Option (Option Json)
  fs : String → FileStat
  store : StoreOutcome

/-- The `ContextResult` built by the try-block of `get_semantic_context`:
empty on any store failure or when the index is missing, else the searched
chunks in order with their summed token counts. -/
def semanticResult (store : StoreOutcome) (limit : Nat) : ContextResult :=
  match store with
  | StoreOutcome.loaded score entries =>
      let rs := search score entries limit
      ⟨rs.map (fun r => (r.chunk.path, r.chunk.content)),
       rs.foldl (fun n r => n + tokens r.chunk.content) 0, "semantic"⟩
  | _ => ⟨[], 0, "semantic"⟩

/-- `get_semantic_context` (lines 161-190): build the result from the store
(any exception swallowed), then load the cache, set `last_query`, and save.
The cache interaction is dynamic-level: Python performs it without needing
well-typed cache fields.  `now` is the timestamp `save_cache` writes. -/
def get_semantic_context (st : SysState) (query : String) (limit : Nat)
    (now : String) : ContextResult × SysState :=
  (semanticResult st.store limit,
   { st with cacheFile := some (some (DynCache.to_json
       { load_cache_dyn st.cacheFile with
         last_query := Json.str query, timestamp := Json.str now })) })

/-- `update_task` (lines 276-280): load, set `last_task`, save. -/
def update_task (st : SysState) (task now : String) : SysState :=
  { st with cacheFile := some (some (DynCache.to_json
      { load_cache_dyn st.cacheFile with
        last_task := Json.str task, timestamp := Json.str now })) }

/-- The state after `save_cache(cache, root)` (lines 69-77) on a well-typed
in-memory cache. -/
def save_typed (st : SysState) (c : ContextCache) (now : String) : SysState :=
  { st with cacheFile := savedFile c now }

/-- `track_file_access` (lines 80-95): load, mutate, save.  On a cache file
whose loaded value carries ill-typed fields, the membership test
`path_str in cache.recent_files` (or the subsequent list methods) raises an
uncaught `TypeError`, so nothing is written; this is rendered as the
`Except.error` branch. -/
def track_file_access (st : SysState) (path now : String) :
    Except String SysState :=
  match loadTyped st.cacheFile with
  | some c => Except.ok (save_typed st (track_update c path) now)
  | none => Except.error "TypeError"

/-- `get_recent_context` (lines 98-125) as a state transaction: loading a
cache with ill-typed fields makes the iteration over `recent_files[:limit]`
raise an uncaught `TypeError`; otherwise the function only reads, returning
the state unchanged. -/
def get_recent_context (st : SysState) (limit maxLines : Nat) (root : String) :
    Except String (ContextResult × SysState) :=
  match loadTyped st.cacheFile with
  | some c => Except.ok (get_recent_result c st.fs limit maxLines root, st)
  | none => Except.error "TypeError"

/-- `get_hot_context` (lines 128-158) as a state transaction, read-only like
`get_recent_context`. -/
def get_hot_context (st : SysState) (limit maxLines : Nat) (root : String) :
    Except String (ContextResult × SysState) :=
  match loadTyped st.cacheFile with
  | some c => Except.ok (get_hot_result c st.fs limit maxLines root, st)
  | none => Except.error "TypeError"

/-- What `parse_file(file_path)` (line 204-205) yields to
`get_dependency_context`: an exception (swallowed by the blanket handler) or
a parsed file with its list of import statements.  `scripts/treesitter_utils.py`
is not among the provided sources; only the list of import strings matters
here. -/
inductive ParseOutcome where
  | failure
  | parsed (imports : List String)

/-- Line 209: `imp.replace('from ', '').replace('import ', '').split()[0]
.split('.')`.  `split()[0]` raises `IndexError` when the cleaned text has no
word; `.split('.')` always yields at least one part. -/
def importParts (imp : String) : Except String (List String) :=
  let cleaned := (imp.replace "from " "").replace "import " ""
  match (cleaned.split isPySpace).filter (fun t => t ≠ "") with
  | [] => Except.error "IndexError: list index out of range"
  | w :: _ => Except.ok (w.splitOn ".")

/-- Line 212: `root / '/'.join(parts[:i]) + '.py'`.  Python parses this as
`(root / '/'.join(parts[:i])) + '.py'` because `/` binds tighter than `+`;
`pathlib.PurePath` defines no `__add__` and `str` defines no `__radd__`, so
evaluating the expression raises `TypeError` unconditionally. -/
def pathPlusStr (p tail : String) : Except String String :=
  Except.error "TypeError: unsupported operand types for + (PosixPath and str)"

/-- The inner loop of `get_dependency_context` (lines 211-221):
`for i in range(len(parts), 0, -1)`, with fuel `i`.  Each executed body
first evaluates the erroring path expression; the continuation (existence
check, truncated read, `break`) is written out even though it is
unreachable. -/
def depInner (fs : String → FileStat) (root : String) (parts : List String) :
    Nat → Except String (Option (String × String))
  | 0 => Except.ok none
  | Nat.succ i => do
      let pp ← pathPlusStr
        (resolvePath root (String.intercalate "/" (parts.take (i + 1)))) ".py"
      match fs pp with
      | FileStat.readable lines =>
          Except.ok (some (pp, (String.join lines).take 2000))
      | FileStat.unreadable => Except.ok none
      | FileStat.absent => depInner fs root parts i

/-- How a run of `get_dependency_context`'s import loop ends: normally, or
interrupted by an exception (which line 222-223 swallows); either way the
files accumulated so far are what the function returns. -/
inductive DepOutcome where
  | completed (acc : List (String × String) × Nat)
  | interrupted (acc : List (String × String) × Nat) (err : String)

/-- The outer loop of `get_dependency_context` (lines 207-221). -/
def depLoop (fs : String → FileStat) (root : String)
    (acc : List (String × String) × Nat) : List String → DepOutcome
  | [] => DepOutcome.completed acc
  | imp :: rest =>
      match importParts imp with
      | Except.error e => DepOutcome.interrupted acc e
      | Except.ok parts =>
          match depInner fs root parts parts.length with
          | Except.error e => DepOutcome.interrupted acc e
          | Except.ok found =>
              let acc' := match found with
                | some pc => (acc.1 ++ [pc], acc.2 + tokens pc.2)
                | none => acc
              depLoop fs root acc' rest

/-- `get_dependency_context` (lines 193-225). -/
def get_dependency_context (fs : String → FileStat) (parse : ParseOutcome)
    (root : String) : ContextResult :=
  match parse with
  | ParseOutcome.failure => ⟨[], 0, "dependency"⟩
  | ParseOutcome.parsed imports =>
      match depLoop fs root ([], 0) imports with
      | DepOutcome.completed acc => ⟨acc.1, acc.2, "dependency"⟩
      | DepOutcome.interrupted acc _ => ⟨acc.1, acc.2, "dependency"⟩

/-- Option-valued dict lookup for the `all_files` dict of
`get_auto_context`. -/
def dictGetS (d : List (String × String)) (k : String) : Option String :=
  (d.find? (fun kv => kv.1 = k)).map (fun kv => kv.2)

/-- `all_files[path] = content` on the string-valued dict. -/
def dictSetS (d : List (String × String)) (k : String) (v : String) :
    List (String × String) :=
  if d.any (fun kv => kv.1 = k)
  then d.map (fun kv => if kv.1 = k then (k, v) else kv)
  else d ++ [(k, v)]

/-- Lines 241-244 (recent phase): include a file whenever its token count
keeps the running total strictly below the budget; `all_files[path]` is
assigned unconditionally. -/
def budgetAdd (budget : Nat) (s : List (String × String) × Nat)
    (pc : String × String) : List (String × String) × Nat :=
  if s.2 + tokens pc.2 < budget
  then (dictSetS s.1 pc.1 pc.2, s.2 + tokens pc.2)
  else s

/-- Lines 249-252 and 257-260 (semantic and hot phases): additionally
require the path to be new. -/
def budgetAddNew (budget : Nat) (s : List (String × String) × Nat)
    (pc : String × String) : List (String × String) × Nat :=
  if pc.1 ∉ s.1.map Prod.fst ∧ s.2 + tokens pc.2 < budget
  then (s.1 ++ [pc], s.2 + tokens pc.2)
  else s

/-- `get_auto_context` (lines 228-273): recent files (limit 3), then — only
when a task is given and budget remains — semantic results (limit 3, which
saves the cache), then — when budget remains — hot files (limit 2).  The
returned pair is the `(all_files, tokens_used)` merge state that lines
263-273 format into the output string (presentation only, elided). -/
def get_auto_context (st : SysState) (task : String) (budget : Nat)
    (root now : String) :
    Except String ((List (String × String) × Nat) × SysState) := do
  let r ← get_recent_context st 3 50 root
  let s1 := r.1.files.foldl (budgetAdd budget) ([], 0)
  let q :=
    if task ≠ "" ∧ s1.2 < budget then
      let q := get_semantic_context r.2 task 3 now
      (q.1.files.foldl (budgetAddNew budget) s1, q.2)
    else (s1, r.2)
  if q.1.2 < budget then do
    let h ← get_hot_context q.2 2 50 root
    Except.ok (h.1.files.foldl (budgetAddNew budget) q.1, h.2)
  else
    Except.ok q

/-- Modelled from the spec: the IndexEntry of §3 — chunk key and content
hash, embedding vector, and the file-level fingerprint recorded at indexing
time.  The Incremental Updater (`reindex`) is not among the provided
sources. -/
structure IndexEntry where
  path : String
  start_line : Nat
  end_line : Nat
  content_hash : Nat
  embedding : List Rat
  fingerprint : Nat
deriving DecidableEq, Repr

/-- Modelled from the spec: the reindex summary of §4.6,
`{added, updated, removed, unchanged, failed}`. -/
structure ReindexSummary where
  added : Nat
  updated : Nat
  removed : Nat
  unchanged : Nat
  failed : Nat
deriving DecidableEq, Repr

/-- Modelled from the spec: one enumerated source file (§4.6 step 1 and
§7(c)) — either readable with its text, or unreadable (permission or
encoding error, skipped and counted as failed, not fatal). -/
inductive SourceFile where
  | unreadable (path : String)
  | readable (path : String) (text : String)

/-- The path of an enumerated source file. -/
def SourceFile.path : SourceFile → String
  | SourceFile.unreadable p => p
  | SourceFile.readable p _ => p

/-- Whether an enumerated source file is readable. -/
def SourceFile.isReadable : SourceFile → Bool
  | SourceFile.unreadable _ => false
  | SourceFile.readable _ _ => true

/-- Modelled from the spec: the collaborators `reindex` consumes (§4.6, §6):
the enumerated files, the deterministic content fingerprint (§4.2), the
chunker with its internal windowed fallback (§4.1), and the Embedding
Provider — `none` when no provider is configured at all (the
configuration-level failure of §7), and per-chunk `none` when a chunk's
embedding persistently fails after the bounded retries of §4.4. -/
structure ReindexEnv where
  files : List SourceFile
  fingerprint : String → Nat
  chunker : String → String → List Chunk
  provider : Option (String → Option (List Rat))

/-- Modelled from the spec: §4.6 steps 2-3 for one enumerated file.  An
unreadable file only bumps `failed`.  A readable file whose existing entries
all carry the current fingerprint is `unchanged`; otherwise its entries are
replaced as a unit by the freshly chunked and embedded ones — chunks whose
embedding fails are skipped and counted in `failed` — and the file counts as
`added` (no prior entries) or `updated`. -/
def processFile (embed : String → Option (List Rat)) (fp : String → Nat)
    (chunker : String → String → List Chunk)
    (acc : ReindexSummary × List IndexEntry) (f : SourceFile) :
    ReindexSummary × List IndexEntry :=
  match f with
  | SourceFile.unreadable _ =>
      ({ acc.1 with failed := acc.1.failed + 1 }, acc.2)
  | SourceFile.readable p text =>
      let fpv := fp text
      let old := acc.2.filter (fun e => e.path = p)
      let rebuilt : Nat × List IndexEntry :=
        let chunks := chunker p text
        let embedded := chunks.map (fun ch => (ch, embed ch.content))
        let good := embedded.filterMap
          (fun ce => ce.2.map (fun v => (ce.1, v)))
        let badCount := (embedded.filter (fun ce => ce.2 = none)).length
        (badCount,
         acc.2.filter (fun e => e.path ≠ p) ++ good.map
           (fun cv => ⟨p, cv.1.start_line, cv.1.end_line,
                       fp cv.1.content, cv.2, fpv⟩))
      match old with
      | [] =>
          ({ acc.1 with added := acc.1.added + 1,
                        failed := acc.1.failed + rebuilt.1 }, rebuilt.2)
      | e :: es =>
          if (e :: es).all (fun e' => e'.fingerprint = fpv) then
            ({ acc.1 with unchanged := acc.1.unchanged + 1 }, acc.2)
          else
            ({ acc.1 with updated := acc.1.updated + 1,
                          failed := acc.1.failed + rebuilt.1 }, rebuilt.2)

/-- Modelled from the spec: `reindex(project_root) -> summary` (§4.6).  With
no Embedding Provider configured the operation aborts with an explicit error
(§7); otherwise entries of paths no longer on disk are removed (step 4,
counted per entry), every enumerated file is processed, and the resulting
summary and index are returned — per-file and per-chunk failures are counted,
never thrown. -/
def reindex (env : ReindexEnv) (idx : List IndexEntry) :
    Except String (ReindexSummary × List IndexEntry) :=
  match env.provider with
  | none => Except.error "no embedding provider configured"
  | some embed =>
      let live := env.files.map SourceFile.path
      let removedCount := (idx.filter (fun e => e.path ∉ live)).length
      let kept := idx.filter (fun e => e.path ∈ live)
      Except.ok (env.files.foldl
        (processFile embed env.fingerprint env.chunker)
        (⟨0, 0, removedCount, 0, 0⟩, kept))

/-! ### Helper lemmas -/

theorem from_dict_to_json (d : DynCache) :
    from_dict (DynCache.to_json d) = some d := rfl

theorem decodeStrings_map (l : List String) :
    decodeStrings (l.map Json.str) = some l := by
  induction l with
  | nil => rfl
  | cons x xs ih => simp [decodeStrings, ih]

theorem decodeHot_map (l : List (String × Int)) :
    decodeHotEntries (l.map (fun kv => (kv.1, Json.num kv.2))) = some l := by
  induction l with
  | nil => rfl
  | cons x xs ih => simp [decodeHotEntries, ih]

theorem typedOf_dynOf (c : ContextCache) : typedOf (dynOf c) = some c := by
  simp [typedOf, dynOf, asArr, asObj, asStr, decodeStrings_map, decodeHot_map]

theorem loadTyped_savedFile (c : ContextCache) (now : String) :
    loadTyped (savedFile c now) = some { c with timestamp := now } := by
  simp [loadTyped, savedFile, load_cache_dyn, ContextCache.to_dict,
    from_dict_to_json, typedOf_dynOf]

theorem dyn_update_query (c : ContextCache) (q now : String) :
    { dynOf c with last_query := Json.str q, timestamp := Json.str now } =
      dynOf { c with last_query := q, timestamp := now } := rfl

theorem dyn_update_task (c : ContextCache) (t now : String) :
    { dynOf c with last_task := Json.str t, timestamp := Json.str now } =
      dynOf { c with last_task := t, timestamp := now } := rfl

/-! ### Claim theorems -/

/-- C10: saving then loading the context cache is a round trip — after
`save_cache(c, root)`, `load_cache(root)` returns a cache whose
`recent_files`, `hot_files`, `last_query` and `last_task` equal those of
`c`, while the timestamp field alone is rewritten by `save_cache` to the
time of saving. -/
theorem claim_c10_save_load_roundtrip (st : SysState) (c : ContextCache)
    (now : String) :
    ∃ c', loadTyped ((save_typed st c now).cacheFile) = some c' ∧
      c'.recent_files = c.recent_files ∧ c'.hot_files = c.hot_files ∧
      c'.last_query = c.last_query ∧ c'.last_task = c.last_task ∧
      c'.timestamp = now :=
  ⟨{ c with timestamp := now }, loadTyped_savedFile c now,
    rfl, rfl, rfl, rfl, rfl⟩

/-- C3 counterexample: a persisted file that is valid JSON but violates the
expected schema by typing — `recent_files` holds the number 42 instead of a
list of strings.  `cls(**data)` binds the keyword without any type check, so
`load_cache` returns a cache carrying the number 42 verbatim, not the fresh
empty `ContextCache()` the claim promises for every schema-mismatched file. -/
theorem claim_c3_counterexample :
    load_cache_dyn
        (some (some (Json.obj [("recent_files", Json.num 42)]))) =
      { emptyDyn with recent_files := Json.num 42 } ∧
    load_cache_dyn
        (some (some (Json.obj [("recent_files", Json.num 42)]))) ≠ emptyDyn :=
  ⟨rfl, fun h =>
    Json.noConfusion
      (congrArg DynCache.recent_files h : Json.num 42 = Json.arr [])⟩

/-- C3 (amended): an absent cache file, a truncated or non-JSON file, and a
JSON file that is not an object of known dataclass keys all make
`load_cache` return a fresh empty `ContextCache` without failing the caller;
but a JSON object carrying only expected keys is accepted verbatim with no
validation of the field value types, so an ill-typed value is carried into
the returned cache rather than replaced by the empty one. -/
theorem claim_c3_load_corrupt (j : Json) :
    load_cache_dyn none = emptyDyn ∧
    load_cache_dyn (some none) = emptyDyn ∧
    (from_dict j = none → load_cache_dyn (some (some j)) = emptyDyn) ∧
    (∀ d, from_dict j = some d → load_cache_dyn (some (some j)) = d) := by
  refine ⟨rfl, rfl, fun h => ?_, fun d h => ?_⟩ <;> simp [load_cache_dyn, h]

/-- C3 witness: a file holding the JSON text `"oops"` (valid JSON, not an
object) is rejected by `cls(**data)` and loads as the fresh empty cache. -/
theorem claim_c3_load_corrupt_witness :
    from_dict (Json.str "oops") = none ∧
    load_cache_dyn (some (some (Json.str "oops"))) = emptyDyn :=
  ⟨rfl, ((claim_c3_load_corrupt (Json.str "oops")).2.2.1 rfl)⟩

/-- C1: `get_semantic_context` always returns a `ContextResult` (the
function is total — every store failure is swallowed); when the vector
store raises, fails to load, or holds an empty index, the result has an
empty file list and token count 0, and when the index is loaded the files
are exactly the searched chunks in order. -/
theorem claim_c1_semantic_never_fails (cf : Option (Option Json))
    (fs : String → FileStat) (q now : String) (limit : Nat)
    (sc : Chunk → Rat) (es : List Chunk) :
    (get_semantic_context ⟨cf, fs, StoreOutcome.failure⟩ q limit now).1 =
      ⟨[], 0, "semantic"⟩ ∧
    (get_semantic_context ⟨cf, fs, StoreOutcome.notLoaded⟩ q limit now).1 =
      ⟨[], 0, "semantic"⟩ ∧
    (get_semantic_context ⟨cf, fs, StoreOutcome.loaded sc []⟩ q limit now).1 =
      ⟨[], 0, "semantic"⟩ ∧
    (get_semantic_context ⟨cf, fs, StoreOutcome.loaded sc es⟩ q limit
        now).1.source = "semantic" ∧
    (get_semantic_context ⟨cf, fs, StoreOutcome.loaded sc es⟩ q limit
        now).1.files =
      (search sc es limit).map (fun r => (r.chunk.path, r.chunk.content)) := by
  refine ⟨rfl, rfl, ?_, rfl, rfl⟩
  simp [get_semantic_context, semanticResult, search]

theorem depInner_zero (fs : String → FileStat) (root : String)
    (parts : List String) : depInner fs root parts 0 = Except.ok none := rfl

theorem depInner_succ (fs : String → FileStat) (root : String)
    (parts : List String) (i : Nat) :
    depInner fs root parts (i + 1) =
      Except.error
        "TypeError: unsupported operand types for + (PosixPath and str)" := rfl

theorem depLoop_no_growth (fs : String → FileStat) (root : String) :
    ∀ (imports : List String) (acc : List (String × String) × Nat),
      depLoop fs root acc imports = DepOutcome.completed acc ∨
      ∃ e, depLoop fs root acc imports = DepOutcome.interrupted acc e := by
  intro imports
  induction imports with
  | nil => exact fun acc => Or.inl rfl
  | cons imp rest ih =>
    intro acc
    simp only [depLoop]
    cases himp : importParts imp with
    | error e => exact Or.inr ⟨e, rfl⟩
    | ok parts =>
      cases parts with
      | nil => simpa [depInner_zero] using ih acc
      | cons p ps => exact Or.inr ⟨_, rfl⟩

/-- C5: `get_dependency_context` always returns an empty `ContextResult`
(and never raises): for any file with at least one import, the first
evaluation of `root / '/'.join(parts[:i]) + '.py'` raises `TypeError`
(a `Path` cannot be concatenated with a `str`), which the blanket handler
swallows before any dependency file is appended — so import resolution
never contributes a file. -/
theorem claim_c5_dependency_always_empty (fs : String → FileStat)
    (parse : ParseOutcome) (root : String) :
    get_dependency_context fs parse root = ⟨[], 0, "dependency"⟩ ∧
    (∀ parts : List String, parts ≠ [] →
      depInner fs root parts parts.length =
        Except.error
          "TypeError: unsupported operand types for + (PosixPath and str)") := by
  constructor
  · cases parse with
    | failure => rfl
    | parsed imports =>
      rcases depLoop_no_growth fs root imports ([], 0) with h | ⟨e, h⟩ <;>
        simp [get_dependency_context, h]
  · intro parts hne
    cases parts with
    | nil => exact absurd rfl hne
    | cons p ps => exact depInner_succ fs root (p :: ps) ps.length

/-- C5 witness: a file importing `os` under root `/proj`, on an empty file
tree — the result is empty and the inner loop raises the `TypeError`. -/
theorem claim_c5_dependency_witness :
    get_dependency_context (fun _ => FileStat.absent)
        (ParseOutcome.parsed ["import os"]) "/proj" = ⟨[], 0, "dependency"⟩ ∧
    (["os"] ≠ ([] : List String)) ∧
    depInner (fun _ => FileStat.absent) "/proj" ["os"] 1 =
      Except.error
        "TypeError: unsupported operand types for + (PosixPath and str)" :=
  ⟨(claim_c5_dependency_always_empty (fun _ => FileStat.absent)
      (ParseOutcome.parsed ["import os"]) "/proj").1,
   by decide,
   (claim_c5_dependency_always_empty (fun _ => FileStat.absent)
      (ParseOutcome.parsed ["import os"]) "/proj").2 ["os"] (by decide)⟩

theorem contextLoop_files (fs : String → FileStat) (root : String)
    (maxl : Nat) :
    ∀ (entries : List String) (acc : List (String × String) × Nat),
      (entries.foldl (contextStep fs root maxl) acc).1 =
        acc.1 ++ entries.filterMap (readEntry fs root maxl) := by
  intro entries
  induction entries with
  | nil => intro acc; simp
  | cons p rest ih =>
    intro acc
    cases h : readEntry fs root maxl p <;>
      simp [List.foldl_cons, contextStep, h, ih]

/-- C6: entries of `recent_files` (and of the sorted `hot_files`) naming an
absent or unreadable file are skipped, not fatal: the result holds exactly
the remaining readable files, each truncated to `max_lines` lines. -/
theorem claim_c6_unreadable_skipped (c : ContextCache)
    (fs : String → FileStat) (limit maxl : Nat) (root : String) :
    (get_recent_result c fs limit maxl root).files =
      (c.recent_files.take limit).filterMap (readEntry fs root maxl) ∧
    (get_hot_result c fs limit maxl root).files =
      (((hotSorted c.hot_files).take limit).map (fun kv => kv.1)).filterMap
        (readEntry fs root maxl) ∧
    (∀ p, fs (resolvePath root p) = FileStat.absent →
      readEntry fs root maxl p = none) ∧
    (∀ p, fs (resolvePath root p) = FileStat.unreadable →
      readEntry fs root maxl p = none) ∧
    (∀ p lines, fs (resolvePath root p) = FileStat.readable lines →
      readEntry fs root maxl p =
        some (resolvePath root p, String.join (lines.take maxl))) := by
  refine ⟨?_, ?_, fun p h => ?_, fun p h => ?_, fun p lines h => ?_⟩
  · simp [get_recent_result, contextLoop, contextLoop_files]
  · simp [get_hot_result, contextLoop, contextLoop_files]
  · simp [readEntry, h]
  · simp [readEntry, h]
  · simp [readEntry, h]

/-- C6 witness: a recent list holding one readable, one unreadable and one
absent file; only the readable one, truncated to one line, is returned. -/
theorem claim_c6_unreadable_skipped_witness :
    (fun p => if p = "/r/a.txt" then FileStat.readable ["ab cd\n", "ef\n"]
              else if p = "/r/bad.txt" then FileStat.unreadable
              else FileStat.absent) (resolvePath "/r" "gone.txt") =
      FileStat.absent ∧
    readEntry
      (fun p => if p = "/r/a.txt" then FileStat.readable ["ab cd\n", "ef\n"]
                else if p = "/r/bad.txt" then FileStat.unreadable
                else FileStat.absent) "/r" 1 "gone.txt" = none ∧
    (get_recent_result ⟨["a.txt", "bad.txt", "gone.txt"], [], "", "", ""⟩
      (fun p => if p = "/r/a.txt" then FileStat.readable ["ab cd\n", "ef\n"]
                else if p = "/r/bad.txt" then FileStat.unreadable
                else FileStat.absent) 5 1 "/r").files =
      [("/r/a.txt", "ab cd\n")] := by
  refine ⟨by decide, ?_, ?_⟩
  · exact (claim_c6_unreadable_skipped
      ⟨["a.txt", "bad.txt", "gone.txt"], [], "", "", ""⟩
      (fun p => if p = "/r/a.txt" then FileStat.readable ["ab cd\n", "ef\n"]
                else if p = "/r/bad.txt" then FileStat.unreadable
                else FileStat.absent) 5 1 "/r").2.2.1 "gone.txt" (by decide)
  · decide

theorem rankLE_iff (a b : SearchResult) :
    rankLE a b ↔
      (b.score < a.score ∨ (a.score = b.score ∧
        (a.chunk.path < b.chunk.path ∨
          (a.chunk.path = b.chunk.path ∧
            a.chunk.start_line ≤ b.chunk.start_line)))) := by
  simp [rankLE, sortKey, Prod.Lex.le_iff, neg_lt_neg_iff, neg_inj]

/-- C2: `search` returns at most `k` results, ordered by score descending
with exact ties ordered ascending by `(path, start_line)`; consequently
`get_semantic_context(query, limit)` returns at most `limit` files, in that
order. -/
theorem claim_c2_search_ranking (sc : Chunk → Rat) (entries : List Chunk)
    (k : Nat) (cf : Option (Option Json)) (fs : String → FileStat)
    (q now : String) :
    (search sc entries k).length ≤ k ∧
    List.Pairwise (fun a b : SearchResult =>
      b.score < a.score ∨ (a.score = b.score ∧
        (a.chunk.path < b.chunk.path ∨
          (a.chunk.path = b.chunk.path ∧
            a.chunk.start_line ≤ b.chunk.start_line))))
      (search sc entries k) ∧
    (get_semantic_context ⟨cf, fs, StoreOutcome.loaded sc entries⟩ q k
        now).1.files =
      (search sc entries k).map (fun r => (r.chunk.path, r.chunk.content)) ∧
    (get_semantic_context ⟨cf, fs, StoreOutcome.loaded sc entries⟩ q k
        now).1.files.length ≤ k := by
  have hlen : (search sc entries k).length ≤ k :=
    List.length_take_le k _
  have hsorted :
      List.Pairwise rankLE (search sc entries k) :=
    (List.sorted_insertionSort rankLE
      (entries.map (fun c => ⟨c, sc c⟩))).sublist
      (List.take_sublist k _)
  refine ⟨hlen, hsorted.imp (fun h => (rankLE_iff _ _).1 h), rfl, ?_⟩
  simpa [get_semantic_context, semanticResult] using hlen

theorem count_pyRemoveFirst (x : String) :
    ∀ l : List String, l.count x ≤ 1 → (pyRemoveFirst l x).count x = 0 := by
  intro l
  induction l with
  | nil => intro _; rfl
  | cons y ys ih =>
    intro h
    by_cases hy : y = x
    · subst hy
      have h' : ys.count y = 0 := by
        rw [List.count_cons] at h
        simp only [beq_self_eq_true, if_true] at h
        omega
      simpa [pyRemoveFirst] using h'
    · simp only [pyRemoveFirst, if_neg hy]
      rw [List.count_cons]
      simp only [beq_iff_eq, hy, if_false]
      have : ys.count x ≤ 1 := by
        rw [List.count_cons] at h
        simp only [beq_iff_eq, hy, if_false] at h
        omega
      simp [ih this]

theorem find?_set_map (k : String) (v : Int) :
    ∀ d : List (String × Int),
      (d.map (fun kv => if kv.1 = k then (k, v) else kv)).find?
          (fun kv => kv.1 = k) =
        (d.find? (fun kv => kv.1 = k)).map (fun _ => (k, v)) := by
  intro d
  induction d with
  | nil => rfl
  | cons kv rest ih =>
    by_cases h : kv.1 = k
    · simp [h]
    · simp [h, ih]

theorem find?_set_map_other (k k' : String) (v : Int) (hne : k' ≠ k) :
    ∀ d : List (String × Int),
      (d.map (fun kv => if kv.1 = k then (k, v) else kv)).find?
          (fun kv => kv.1 = k') = d.find? (fun kv => kv.1 = k') := by
  intro d
  induction d with
  | nil => rfl
  | cons kv rest ih =>
    obtain ⟨a, b⟩ := kv
    by_cases h : a = k
    · subst h
      have hhead :
          (if (a, b).1 = a then (a, v) else (a, b)) = (a, v) := by simp
      rw [List.map_cons, hhead,
          List.find?_cons_of_neg _ (by simp [Ne.symm hne]),
          List.find?_cons_of_neg _ (by simp [Ne.symm hne]), ih]
    · have hhead :
          (if (a, b).1 = k then (k, v) else (a, b)) = (a, b) := by simp [h]
      rw [List.map_cons, hhead]
      by_cases h' : a = k'
      · rw [List.find?_cons_of_pos _ (by simp [h']),
            List.find?_cons_of_pos _ (by simp [h'])]
      · rw [List.find?_cons_of_neg _ (by simp [h']),
            List.find?_cons_of_neg _ (by simp [h']), ih]

theorem find?_none_of_not_any (d : List (String × Int)) (k : String)
    (h : ¬ d.any (fun kv => kv.1 = k)) :
    d.find? (fun kv => kv.1 = k) = none := by
  rw [List.find?_eq_none]
  intro x hx hpx
  exact h (List.any_eq_true.2 ⟨x, hx, hpx⟩)

theorem dictGet_dictSet_self (d : List (String × Int)) (k : String) (v : Int) :
    dictGet (dictSet d k v) k 0 = v := by
  unfold dictGet dictSet
  by_cases h : d.any (fun kv => kv.1 = k)
  · rw [if_pos h, find?_set_map]
    cases hf : d.find? (fun kv => kv.1 = k) with
    | none =>
      rw [List.any_eq_true] at h
      obtain ⟨x, hx, hpx⟩ := h
      rw [List.find?_eq_none] at hf
      exact absurd hpx (hf x hx)
    | some kv => simp
  · rw [if_neg h, List.find?_append, find?_none_of_not_any d k h]
    simp

theorem dictGet_dictSet_other (d : List (String × Int)) (k k' : String)
    (v : Int) (h : k' ≠ k) :
    dictGet (dictSet d k v) k' 0 = dictGet d k' 0 := by
  unfold dictGet dictSet
  by_cases hany : d.any (fun kv => kv.1 = k)
  · rw [if_pos hany, find?_set_map_other k k' v h]
  · rw [if_neg hany, List.find?_append]
    cases hf : d.find? (fun kv => kv.1 = k') with
    | some kv => simp [hf]
    | none => simp [hf, Ne.symm h]

/-- C9: after `track_file_access(path)` the cache has the tracked path
first in `recent_files`, at most 20 recent entries, no duplicate of the
tracked path, `hot_files[path]` bumped by exactly one, every other hot
entry unchanged, and the remaining fields untouched (the timestamp alone is
rewritten later, by `save_cache`). -/
theorem claim_c9_track_invariants (c : ContextCache) (path : String)
    (h : c.recent_files.count path ≤ 1) :
    (track_update c path).recent_files.head? = some path ∧
    (track_update c path).recent_files.length ≤ 20 ∧
    (track_update c path).recent_files.count path = 1 ∧
    dictGet (track_update c path).hot_files path 0 =
      dictGet c.hot_files path 0 + 1 ∧
    (∀ k, k ≠ path → dictGet (track_update c path).hot_files k 0 =
      dictGet c.hot_files k 0) ∧
    (track_update c path).last_query = c.last_query ∧
    (track_update c path).last_task = c.last_task ∧
    (track_update c path).timestamp = c.timestamp := by
  have hr0 :
      (if path ∈ c.recent_files then pyRemoveFirst c.recent_files path
       else c.recent_files).count path = 0 := by
    by_cases hm : path ∈ c.recent_files
    · rw [if_pos hm]; exact count_pyRemoveFirst path c.recent_files h
    · rw [if_neg hm]; exact List.count_eq_zero.2 hm
  refine ⟨rfl, ?_, ?_, ?_, fun k hk => ?_, rfl, rfl, rfl⟩
  · simpa [track_update] using List.length_take_le 20 _
  · show (List.take 20 (path :: _)).count path = 1
    rw [List.take_succ_cons, List.count_cons]
    have : (List.take 19 (if path ∈ c.recent_files
        then pyRemoveFirst c.recent_files path
        else c.recent_files)).count path = 0 :=
      Nat.le_zero.mp (hr0 ▸ (List.take_sublist 19 _).count_le path)
    simp [this]
  · simpa [track_update] using
      dictGet_dictSet_self c.hot_files path (dictGet c.hot_files path 0 + 1)
  · simpa [track_update] using
      dictGet_dictSet_other c.hot_files path k
        (dictGet c.hot_files path 0 + 1) hk

/-- C9 witness: tracking `b` on a cache that recently saw `a` and `b`. -/
theorem claim_c9_track_invariants_witness :
    (["a", "b"] : List String).count "b" ≤ 1 ∧
    (track_update ⟨["a", "b"], [("a", 3)], "q", "t", "s"⟩
        "b").recent_files.head? = some "b" ∧
    dictGet (track_update ⟨["a", "b"], [("a", 3)], "q", "t", "s"⟩
        "b").hot_files "b" 0 =
      dictGet [("a", 3)] "b" 0 + 1 :=
  ⟨by decide,
   (claim_c9_track_invariants ⟨["a", "b"], [("a", 3)], "q", "t", "s"⟩ "b"
      (by decide)).1,
   (claim_c9_track_invariants ⟨["a", "b"], [("a", 3)], "q", "t", "s"⟩ "b"
      (by decide)).2.2.2.1⟩

theorem asArr_inv (j : Json) (xs : List Json) (h : asArr j = some xs) :
    j = Json.arr xs := by
  cases j <;> simp [asArr] at h <;> simp [h]

theorem asObj_inv (j : Json) (kvs : List (String × Json))
    (h : asObj j = some kvs) : j = Json.obj kvs := by
  cases j <;> simp [asObj] at h <;> simp [h]

theorem asStr_inv (j : Json) (s : String) (h : asStr j = some s) :
    j = Json.str s := by
  cases j <;> simp [asStr] at h <;> simp [h]

theorem decodeStrings_inv :
    ∀ (rs : List Json) (l : List String),
      decodeStrings rs = some l → rs = l.map Json.str := by
  intro rs
  induction rs with
  | nil =>
    intro l h
    simp [decodeStrings] at h
    simp [h.symm]
  | cons j rest ih =>
    intro l h
    cases j with
    | str s =>
      simp only [decodeStrings, Option.map_eq_some'] at h
      obtain ⟨l', hl', hcons⟩ := h
      subst hcons
      simp [ih l' hl']
    | num n => simp [decodeStrings] at h
    | arr xs => simp [decodeStrings] at h
    | obj kvs => simp [decodeStrings] at h

theorem decodeHot_inv :
    ∀ (hs : List (String × Json)) (l : List (String × Int)),
      decodeHotEntries hs = some l →
        hs = l.map (fun kv => (kv.1, Json.num kv.2)) := by
  intro hs
  induction hs with
  | nil =>
    intro l h
    simp [decodeHotEntries] at h
    simp [h.symm]
  | cons kv rest ih =>
    intro l h
    obtain ⟨k, j⟩ := kv
    cases j with
    | num n =>
      simp only [decodeHotEntries, Option.map_eq_some'] at h
      obtain ⟨l', hl', hcons⟩ := h
      subst hcons
      simp [ih l' hl']
    | str s => simp [decodeHotEntries] at h
    | arr xs => simp [decodeHotEntries] at h
    | obj kvs => simp [decodeHotEntries] at h

theorem typedOf_inv (d : DynCache) (c : ContextCache)
    (h : typedOf d = some c) : d = dynOf c := by
  simp only [typedOf, bind, Option.bind_eq_some, Option.some.injEq] at h
  obtain ⟨rs, h1, hs, h2, q, h3, t, h4, ts, h5, rl, h6, hl, h7, hc⟩ := h
  obtain ⟨rf, hf, lq, ltk, tst⟩ := d
  simp only at h1 h2 h3 h4 h5
  subst hc
  rw [asArr_inv _ _ h1, asObj_inv _ _ h2, asStr_inv _ _ h3,
    asStr_inv _ _ h4, asStr_inv _ _ h5,
    decodeStrings_inv _ _ h6, decodeHot_inv _ _ h7]
  rfl

theorem load_dyn_of_typed (file : Option (Option Json)) (c : ContextCache)
    (h : loadTyped file = some c) : load_cache_dyn file = dynOf c :=
  typedOf_inv _ _ h

/-- C7: each context operation loads the shared cache once and the mutating
ones persist exactly once at their end — `get_recent_context` and
`get_hot_context` leave the whole state (in particular the persisted cache
file) unchanged, while `track_file_access`, `update_task` and
`get_semantic_context` leave the cache file holding exactly the dump of the
loaded cache with their single mutation applied (and the save timestamp),
touching nothing else in the state. -/
theorem claim_c7_cache_lifecycle (st : SysState) (c : ContextCache)
    (path task query now root : String) (limit maxl : Nat)
    (h : loadTyped st.cacheFile = some c) :
    (get_recent_context st limit maxl root =
      Except.ok (get_recent_result c st.fs limit maxl root, st)) ∧
    (get_hot_context st limit maxl root =
      Except.ok (get_hot_result c st.fs limit maxl root, st)) ∧
    (track_file_access st path now =
      Except.ok (save_typed st (track_update c path) now)) ∧
    ((update_task st task now).cacheFile =
        savedFile { c with last_task := task } now ∧
      (update_task st task now).fs = st.fs ∧
      (update_task st task now).store = st.store) ∧
    ((get_semantic_context st query limit now).2.cacheFile =
        savedFile { c with last_query := query } now ∧
      (get_semantic_context st query limit now).2.fs = st.fs ∧
      (get_semantic_context st query limit now).2.store = st.store) := by
  have hdyn : load_cache_dyn st.cacheFile = dynOf c :=
    load_dyn_of_typed st.cacheFile c h
  refine ⟨?_, ?_, ?_, ⟨?_, rfl, rfl⟩, ⟨?_, rfl, rfl⟩⟩
  · simp [get_recent_context, h]
  · simp [get_hot_context, h]
  · simp [track_file_access, h]
  · simp [update_task, hdyn, dyn_update_task, savedFile, ContextCache.to_dict]
  · simp [get_semantic_context, hdyn, dyn_update_query, savedFile,
      ContextCache.to_dict]

/-- C7 witness: a state whose cache file holds the dump of an in-memory
cache; the read-only recent query returns the state unchanged and
`update_task` persists the single mutation. -/
theorem claim_c7_cache_lifecycle_witness :
    loadTyped (SysState.mk (savedFile ⟨["a"], [("a", 1)], "", "", ""⟩ "t0")
        (fun _ => FileStat.absent) StoreOutcome.notLoaded).cacheFile =
      some ⟨["a"], [("a", 1)], "", "", "t0"⟩ ∧
    (get_recent_context (SysState.mk
        (savedFile ⟨["a"], [("a", 1)], "", "", ""⟩ "t0")
        (fun _ => FileStat.absent) StoreOutcome.notLoaded) 5 50 "/r" =
      Except.ok (get_recent_result ⟨["a"], [("a", 1)], "", "", "t0"⟩
        (fun _ => FileStat.absent) 5 50 "/r",
        SysState.mk (savedFile ⟨["a"], [("a", 1)], "", "", ""⟩ "t0")
          (fun _ => FileStat.absent) StoreOutcome.notLoaded)) ∧
    (update_task (SysState.mk (savedFile ⟨["a"], [("a", 1)], "", "", ""⟩ "t0")
        (fun _ => FileStat.absent) StoreOutcome.notLoaded) "tsk"
        "t1").cacheFile =
      savedFile ⟨["a"], [("a", 1)], "", "tsk", "t0"⟩ "t1" :=
  ⟨by decide,
   (claim_c7_cache_lifecycle
      (SysState.mk (savedFile ⟨["a"], [("a", 1)], "", "", ""⟩ "t0")
        (fun _ => FileStat.absent) StoreOutcome.notLoaded)
      ⟨["a"], [("a", 1)], "", "", "t0"⟩ "p" "tsk" "q" "t1" "/r" 5 50
      (by decide)).1,
   (claim_c7_cache_lifecycle
      (SysState.mk (savedFile ⟨["a"], [("a", 1)], "", "", ""⟩ "t0")
        (fun _ => FileStat.absent) StoreOutcome.notLoaded)
      ⟨["a"], [("a", 1)], "", "", "t0"⟩ "p" "tsk" "q" "t1" "/r" 5 50
      (by decide)).2.2.2.1.1⟩

/-- Invariant of the `get_auto_context` merge state: distinct paths, zero
tokens while nothing is included, and a total strictly below the budget once
anything is. -/
def mergeInv (budget : Nat) (s : List (String × String) × Nat) : Prop :=
  (s.1.map Prod.fst).Nodup ∧ (s.1 = [] → s.2 = 0) ∧ (s.1 ≠ [] → s.2 < budget)

theorem keys_dictSetS_of_any (d : List (String × String)) (k : String)
    (v : String) (h : d.any (fun kv => kv.1 = k)) :
    (dictSetS d k v).map Prod.fst = d.map Prod.fst := by
  unfold dictSetS
  rw [if_pos h, List.map_map]
  apply List.map_congr_left
  intro kv _
  by_cases hkv : kv.1 = k
  · simp [hkv]
  · simp [hkv]

theorem not_mem_keys_of_not_any (d : List (String × String)) (k : String)
    (h : ¬ d.any (fun kv => kv.1 = k)) : k ∉ d.map Prod.fst := by
  intro hmem
  obtain ⟨kv, hkv, hfst⟩ := List.mem_map.1 hmem
  exact h (List.any_eq_true.2 ⟨kv, hkv, by simp [hfst]⟩)

theorem dictSetS_ne_nil (d : List (String × String)) (k v : String) :
    dictSetS d k v ≠ [] := by
  unfold dictSetS
  split
  · intro hmap
    rw [List.map_eq_nil] at hmap
    subst hmap
    simp at *
  · simp

theorem nodup_keys_dictSetS (d : List (String × String)) (k v : String)
    (h : (d.map Prod.fst).Nodup) :
    ((dictSetS d k v).map Prod.fst).Nodup := by
  by_cases hany : d.any (fun kv => kv.1 = k)
  · rw [keys_dictSetS_of_any d k v hany]; exact h
  · unfold dictSetS
    rw [if_neg hany, List.map_append]
    simpa using List.Nodup.append h (by simp)
      (by simpa using fun (x : String) (hmem : (k, x) ∈ d) =>
        not_mem_keys_of_not_any d k hany (List.mem_map.2 ⟨(k, x), hmem, rfl⟩))

theorem mergeInv_budgetAdd (budget : Nat) (s : List (String × String) × Nat)
    (pc : String × String) (h : mergeInv budget s) :
    mergeInv budget (budgetAdd budget s pc) := by
  unfold budgetAdd
  by_cases hb : s.2 + tokens pc.2 < budget
  · rw [if_pos hb]
    exact ⟨nodup_keys_dictSetS s.1 pc.1 pc.2 h.1,
      fun he => absurd he (dictSetS_ne_nil s.1 pc.1 pc.2),
      fun _ => hb⟩
  · rw [if_neg hb]; exact h

theorem mergeInv_budgetAddNew (budget : Nat)
    (s : List (String × String) × Nat) (pc : String × String)
    (h : mergeInv budget s) : mergeInv budget (budgetAddNew budget s pc) := by
  unfold budgetAddNew
  by_cases hb : pc.1 ∉ s.1.map Prod.fst ∧ s.2 + tokens pc.2 < budget
  · rw [if_pos hb]
    refine ⟨?_, by simp, fun _ => hb.2⟩
    rw [List.map_append]
    simpa using List.Nodup.append h.1 (by simp)
      (by simpa using fun (x : String) (hmem : (pc.1, x) ∈ s.1) =>
        hb.1 (List.mem_map.2 ⟨(pc.1, x), hmem, rfl⟩))
  · rw [if_neg hb]; exact h

theorem mergeInv_foldl_budgetAdd (budget : Nat) :
    ∀ (items : List (String × String)) (s : List (String × String) × Nat),
      mergeInv budget s → mergeInv budget (items.foldl (budgetAdd budget) s) := by
  intro items
  induction items with
  | nil => exact fun s h => h
  | cons pc rest ih =>
    exact fun s h => ih _ (mergeInv_budgetAdd budget s pc h)

theorem mergeInv_foldl_budgetAddNew (budget : Nat) :
    ∀ (items : List (String × String)) (s : List (String × String) × Nat),
      mergeInv budget s →
        mergeInv budget (items.foldl (budgetAddNew budget) s) := by
  intro items
  induction items with
  | nil => exact fun s h => h
  | cons pc rest ih =>
    exact fun s h => ih _ (mergeInv_budgetAddNew budget s pc h)

theorem mergeInv_init (budget : Nat) :
    mergeInv budget (([] : List (String × String)), 0) :=
  ⟨List.nodup_nil, fun _ => rfl, fun hne => absurd rfl hne⟩

theorem foldl_budgetAddNew_prefix (budget : Nat) :
    ∀ (items : List (String × String)) (s : List (String × String) × Nat),
      s.1 <+: (items.foldl (budgetAddNew budget) s).1 := by
  intro items
  induction items with
  | nil => exact fun s => List.prefix_rfl
  | cons pc rest ih =>
    intro s
    refine List.IsPrefix.trans ?_ (ih (budgetAddNew budget s pc))
    unfold budgetAddNew
    split
    · exact ⟨[pc], rfl⟩
    · exact List.prefix_rfl

theorem dictGetS_append_right (d : List (String × String))
    (e : List (String × String)) (p v : String)
    (h : dictGetS d p = some v) : dictGetS (d ++ e) p = some v := by
  unfold dictGetS at *
  rw [List.find?_append]
  cases hf : d.find? (fun kv => kv.1 = p) with
  | none => rw [hf] at h; exact absurd h (by simp)
  | some kv => rw [hf] at h; simpa using h

theorem foldl_budgetAddNew_lookup (budget : Nat) :
    ∀ (items : List (String × String)) (s : List (String × String) × Nat)
      (p v : String), dictGetS s.1 p = some v →
        dictGetS ((items.foldl (budgetAddNew budget) s).1) p = some v := by
  intro items
  induction items with
  | nil => exact fun s p v h => h
  | cons pc rest ih =>
    intro s p v h
    refine ih _ p v ?_
    unfold budgetAddNew
    split
    · exact dictGetS_append_right s.1 [pc] p v h
    · exact h

theorem except_ok_bind {α β : Type} (x : α) (f : α → Except String β) :
    (Except.ok x >>= f) = f x := rfl

theorem semantic_state_eq (st : SysState) (c : ContextCache) (q : String)
    (limit : Nat) (now : String) (h : loadTyped st.cacheFile = some c) :
    (get_semantic_context st q limit now).2 =
      save_typed st { c with last_query := q } now := by
  have hdyn : load_cache_dyn st.cacheFile = dynOf c :=
    load_dyn_of_typed st.cacheFile c h
  simp [get_semantic_context, save_typed, hdyn, dyn_update_query, savedFile,
    ContextCache.to_dict]

theorem hot_after_save (st : SysState) (c' : ContextCache) (now : String)
    (limit maxl : Nat) (root : String) :
    get_hot_context (save_typed st c' now) limit maxl root =
      Except.ok (get_hot_result { c' with timestamp := now } st.fs limit maxl
        root, save_typed st c' now) := by
  simp [get_hot_context, save_typed, loadTyped_savedFile]

/-- The merge state after the recent phase of `get_auto_context`. -/
def autoMergeS1 (c : ContextCache) (fs : String → FileStat) (budget : Nat)
    (root : String) : List (String × String) × Nat :=
  (get_recent_result c fs 3 50 root).files.foldl (budgetAdd budget) ([], 0)

/-- The merge state after the semantic phase of `get_auto_context`. -/
def autoMergeS2 (c : ContextCache) (st : SysState) (task : String)
    (budget : Nat) (root : String) : List (String × String) × Nat :=
  if task ≠ "" ∧ (autoMergeS1 c st.fs budget root).2 < budget
  then (semanticResult st.store 3).files.foldl (budgetAddNew budget)
    (autoMergeS1 c st.fs budget root)
  else autoMergeS1 c st.fs budget root

/-- The final merge state of `get_auto_context`. -/
def autoMergeFinal (c : ContextCache) (st : SysState) (task : String)
    (budget : Nat) (root : String) : List (String × String) × Nat :=
  if (autoMergeS2 c st task budget root).2 < budget
  then (get_hot_result c st.fs 2 50 root).files.foldl (budgetAddNew budget)
    (autoMergeS2 c st task budget root)
  else autoMergeS2 c st task budget root

/-- The state `get_auto_context` finishes in: the semantic phase alone
mutates the cache file. -/
def autoFinalState (c : ContextCache) (st : SysState) (task : String)
    (budget : Nat) (root now : String) : SysState :=
  if task ≠ "" ∧ (autoMergeS1 c st.fs budget root).2 < budget
  then save_typed st { c with last_query := task } now
  else st

theorem get_hot_result_hot_congr (c c' : ContextCache)
    (h : c.hot_files = c'.hot_files) (fs : String → FileStat)
    (limit maxl : Nat) (root : String) :
    get_hot_result c fs limit maxl root =
      get_hot_result c' fs limit maxl root := by
  unfold get_hot_result
  rw [h]

theorem get_auto_context_eq (st : SysState) (c : ContextCache) (task : String)
    (budget : Nat) (root now : String) (h : loadTyped st.cacheFile = some c) :
    get_auto_context st task budget root now =
      Except.ok (autoMergeFinal c st task budget root,
        autoFinalState c st task budget root now) := by
  have hrec : get_recent_context st 3 50 root =
      Except.ok (get_recent_result c st.fs 3 50 root, st) := by
    simp [get_recent_context, h]
  have hsem : (get_semantic_context st task 3 now).2 =
      save_typed st { c with last_query := task } now :=
    semantic_state_eq st c task 3 now h
  have hhot : get_hot_context st 2 50 root =
      Except.ok (get_hot_result c st.fs 2 50 root, st) := by
    simp [get_hot_context, h]
  unfold get_auto_context autoMergeFinal autoMergeS2 autoFinalState
    autoMergeS1
  rw [hrec, except_ok_bind]
  dsimp only
  by_cases hc1 : task ≠ "" ∧
      ((get_recent_result c st.fs 3 50 root).files.foldl (budgetAdd budget)
        ([], 0)).2 < budget
  · rw [if_pos hc1, hsem]
    dsimp only [get_semantic_context]
    by_cases hc2 :
        ((semanticResult st.store 3).files.foldl (budgetAddNew budget)
          ((get_recent_result c st.fs 3 50 root).files.foldl
            (budgetAdd budget) ([], 0))).2 < budget
    · simp only [if_pos hc1, if_pos hc2, hot_after_save, except_ok_bind]
      rw [get_hot_result_hot_congr
        { c with last_query := task, timestamp := now } c rfl]
    · simp only [if_pos hc1, if_neg hc2]
  · rw [if_neg hc1]
    dsimp only
    by_cases hc2 :
        ((get_recent_result c st.fs 3 50 root).files.foldl (budgetAdd budget)
          ([], 0)).2 < budget
    · simp only [if_neg hc1, if_pos hc2, hhot, except_ok_bind]
    · simp only [if_neg hc1, if_neg hc2]

theorem mergeInv_autoMergeS1 (c : ContextCache) (fs : String → FileStat)
    (budget : Nat) (root : String) :
    mergeInv budget (autoMergeS1 c fs budget root) :=
  mergeInv_foldl_budgetAdd budget _ _ (mergeInv_init budget)

theorem mergeInv_autoMergeS2 (c : ContextCache) (st : SysState)
    (task : String) (budget : Nat) (root : String) :
    mergeInv budget (autoMergeS2 c st task budget root) := by
  unfold autoMergeS2
  split
  · exact mergeInv_foldl_budgetAddNew budget _ _
      (mergeInv_autoMergeS1 c st.fs budget root)
  · exact mergeInv_autoMergeS1 c st.fs budget root

theorem mergeInv_autoMergeFinal (c : ContextCache) (st : SysState)
    (task : String) (budget : Nat) (root : String) :
    mergeInv budget (autoMergeFinal c st task budget root) := by
  unfold autoMergeFinal
  split
  · exact mergeInv_foldl_budgetAddNew budget _ _
      (mergeInv_autoMergeS2 c st task budget root)
  · exact mergeInv_autoMergeS2 c st task budget root

theorem autoMerge_prefix (c : ContextCache) (st : SysState) (task : String)
    (budget : Nat) (root : String) :
    (autoMergeS1 c st.fs budget root).1 <+:
      (autoMergeFinal c st task budget root).1 := by
  have h1 : (autoMergeS1 c st.fs budget root).1 <+:
      (autoMergeS2 c st task budget root).1 := by
    unfold autoMergeS2
    split
    · exact foldl_budgetAddNew_prefix budget _ _
    · exact List.prefix_rfl
  have h2 : (autoMergeS2 c st task budget root).1 <+:
      (autoMergeFinal c st task budget root).1 := by
    unfold autoMergeFinal
    split
    · exact foldl_budgetAddNew_prefix budget _ _
    · exact List.prefix_rfl
  exact h1.trans h2

theorem autoMerge_lookup (c : ContextCache) (st : SysState) (task : String)
    (budget : Nat) (root : String) (p v : String)
    (hp : dictGetS (autoMergeS1 c st.fs budget root).1 p = some v) :
    dictGetS (autoMergeFinal c st task budget root).1 p = some v := by
  have h1 : dictGetS (autoMergeS2 c st task budget root).1 p = some v := by
    unfold autoMergeS2
    split
    · exact foldl_budgetAddNew_lookup budget _ _ p v hp
    · exact hp
  unfold autoMergeFinal
  split
  · exact foldl_budgetAddNew_lookup budget _ _ p v h1
  · exact h1

theorem autoMergeFinal_empty_task (c : ContextCache) (st st' : SysState)
    (hfs : st.fs = st'.fs) (budget : Nat) (root : String) :
    autoMergeFinal c st "" budget root =
      autoMergeFinal c st' "" budget root := by
  unfold autoMergeFinal autoMergeS2 autoMergeS1
  rw [hfs]
  simp

/-- C4: `get_auto_context` merges its sources by budget accounting in the
fixed order recent / semantic (only for a non-empty task) / hot: each path
appears at most once, a path from the recent phase keeps its recent-phase
content, the recent-phase paths form a prefix of the output, a file is
added only while the running total stays strictly below the budget — hence
the reported total is below the budget whenever anything was included and 0
otherwise — and with an empty task the result doesn't consult the semantic
store at all. -/
theorem claim_c4_auto_context_merge (st : SysState) (c : ContextCache)
    (task : String) (budget : Nat) (root now : String)
    (h : loadTyped st.cacheFile = some c) :
    ∃ files used st3,
      get_auto_context st task budget root now =
        Except.ok ((files, used), st3) ∧
      (files.map Prod.fst).Nodup ∧
      (files = [] → used = 0) ∧
      (files ≠ [] → used < budget) ∧
      (autoMergeS1 c st.fs budget root).1 <+: files ∧
      (∀ p v, dictGetS (autoMergeS1 c st.fs budget root).1 p = some v →
        dictGetS files p = some v) ∧
      (task = "" → ∀ o : StoreOutcome,
        Except.map Prod.fst
            (get_auto_context (SysState.mk st.cacheFile st.fs o) task budget
              root now) = Except.ok (files, used)) := by
  refine ⟨(autoMergeFinal c st task budget root).1,
    (autoMergeFinal c st task budget root).2,
    autoFinalState c st task budget root now, ?_,
    (mergeInv_autoMergeFinal c st task budget root).1,
    (mergeInv_autoMergeFinal c st task budget root).2.1,
    (mergeInv_autoMergeFinal c st task budget root).2.2,
    autoMerge_prefix c st task budget root,
    fun p v hp => autoMerge_lookup c st task budget root p v hp, ?_⟩
  · rw [get_auto_context_eq st c task budget root now h]
  · intro he o
    subst he
    rw [get_auto_context_eq (SysState.mk st.cacheFile st.fs o) c "" budget
      root now h]
    rw [autoMergeFinal_empty_task c (SysState.mk st.cacheFile st.fs o) st rfl
      budget root]
    rfl

/-- C4 witness: a concrete state whose cache file holds one recent file
readable under the root, an ample budget and an empty task. -/
theorem claim_c4_auto_context_merge_witness :
    loadTyped (SysState.mk (savedFile ⟨["a.py"], [], "", "", ""⟩ "t0")
        (fun p => if p = "/r/a.py" then FileStat.readable ["x y z\n"]
                  else FileStat.absent) StoreOutcome.notLoaded).cacheFile =
      some ⟨["a.py"], [], "", "", "t0"⟩ ∧
    ∃ files used st3,
      get_auto_context (SysState.mk (savedFile ⟨["a.py"], [], "", "", ""⟩ "t0")
          (fun p => if p = "/r/a.py" then FileStat.readable ["x y z\n"]
                    else FileStat.absent) StoreOutcome.notLoaded) "" 100 "/r"
          "t1" = Except.ok ((files, used), st3) ∧
      (files.map Prod.fst).Nodup ∧
      (files = [] → used = 0) ∧
      (files ≠ [] → used < 100) ∧
      (autoMergeS1 ⟨["a.py"], [], "", "", "t0"⟩
          (fun p => if p = "/r/a.py" then FileStat.readable ["x y z\n"]
                    else FileStat.absent) 100 "/r").1 <+: files ∧
      (∀ p v, dictGetS (autoMergeS1 ⟨["a.py"], [], "", "", "t0"⟩
          (fun p => if p = "/r/a.py" then FileStat.readable ["x y z\n"]
                    else FileStat.absent) 100 "/r").1 p = some v →
        dictGetS files p = some v) ∧
      (("" : String) = "" → ∀ o : StoreOutcome,
        Except.map Prod.fst
            (get_auto_context (SysState.mk
              (savedFile ⟨["a.py"], [], "", "", ""⟩ "t0")
              (fun p => if p = "/r/a.py" then FileStat.readable ["x y z\n"]
                        else FileStat.absent) o) "" 100 "/r" "t1") =
          Except.ok (files, used)) :=
  ⟨by decide,
   claim_c4_auto_context_merge
     (SysState.mk (savedFile ⟨["a.py"], [], "", "", ""⟩ "t0")
       (fun p => if p = "/r/a.py" then FileStat.readable ["x y z\n"]
                 else FileStat.absent) StoreOutcome.notLoaded)
     ⟨["a.py"], [], "", "", "t0"⟩ "" 100 "/r" "t1" (by decide)⟩

theorem processFile_counts (embed : String → Option (List Rat))
    (fp : String → Nat) (chunker : String → String → List Chunk)
    (acc : ReindexSummary × List IndexEntry) (f : SourceFile) :
    ((processFile embed fp chunker acc f).1.added +
        (processFile embed fp chunker acc f).1.updated +
        (processFile embed fp chunker acc f).1.unchanged =
      acc.1.added + acc.1.updated + acc.1.unchanged +
        (if f.isReadable then 1 else 0)) ∧
    acc.1.failed + (if f.isReadable then 0 else 1) ≤
      (processFile embed fp chunker acc f).1.failed ∧
    (processFile embed fp chunker acc f).1.removed = acc.1.removed := by
  cases f with
  | unreadable p => simp [processFile, SourceFile.isReadable]
  | readable p text =>
    simp only [processFile, SourceFile.isReadable]
    cases hold : acc.2.filter (fun e => e.path = p) with
    | nil => simp <;> omega
    | cons e es =>
      by_cases hall : ((e :: es).all (fun e' => e'.fingerprint = fp text))
      · simp [hall] <;> omega
      · simp [hall] <;> omega

theorem reindex_fold_counts (embed : String → Option (List Rat))
    (fp : String → Nat) (chunker : String → String → List Chunk) :
    ∀ (files : List SourceFile) (acc : ReindexSummary × List IndexEntry),
      ((files.foldl (processFile embed fp chunker) acc).1.added +
          (files.foldl (processFile embed fp chunker) acc).1.updated +
          (files.foldl (processFile embed fp chunker) acc).1.unchanged =
        acc.1.added + acc.1.updated + acc.1.unchanged +
          (files.filter (fun f => f.isReadable)).length) ∧
      acc.1.failed + (files.filter (fun f => !f.isReadable)).length ≤
        (files.foldl (processFile embed fp chunker) acc).1.failed ∧
      (files.foldl (processFile embed fp chunker) acc).1.removed =
        acc.1.removed := by
  intro files
  induction files with
  | nil => intro acc; simp
  | cons f rest ih =>
    intro acc
    obtain ⟨hsum, hfail, hrem⟩ := processFile_counts embed fp chunker acc f
    obtain ⟨ihsum, ihfail, ihrem⟩ := ih (processFile embed fp chunker acc f)
    refine ⟨?_, ?_, ?_⟩
    · rw [List.foldl_cons, ihsum, hsum]
      cases hf : f.isReadable <;> simp [List.filter_cons, hf] <;> omega
    · rw [List.foldl_cons]
      have hflen : ((f :: rest).filter (fun f => !f.isReadable)).length =
          (if f.isReadable then 0 else 1) +
            (rest.filter (fun f => !f.isReadable)).length := by
        cases hf : f.isReadable <;> simp [List.filter_cons, hf] <;> omega
      omega
    · rw [List.foldl_cons, ihrem, hrem]

/-- C8: `reindex` aborts only on the configuration-level failure of a
missing Embedding Provider; otherwise it returns a summary in which every
readable enumerated file is counted exactly once among
added/updated/unchanged, per-file and per-chunk failures are only counted
(each unreadable file contributes to `failed`), and `removed` counts
exactly the entries of paths no longer enumerated. -/
theorem claim_c8_reindex_summary (env : ReindexEnv) (idx : List IndexEntry) :
    (env.provider = none →
      reindex env idx = Except.error "no embedding provider configured") ∧
    (∀ embed, env.provider = some embed →
      ∃ s idx', reindex env idx = Except.ok (s, idx') ∧
        s.added + s.updated + s.unchanged =
          (env.files.filter (fun f => f.isReadable)).length ∧
        (env.files.filter (fun f => !f.isReadable)).length ≤ s.failed ∧
        s.removed = (idx.filter
          (fun e => e.path ∉ env.files.map SourceFile.path)).length) := by
  constructor
  · intro hp
    simp [reindex, hp]
  · intro embed hp
    obtain ⟨hsum, hfail, hrem⟩ := reindex_fold_counts embed env.fingerprint
      env.chunker env.files
      (⟨0, 0, (idx.filter
          (fun e => e.path ∉ env.files.map SourceFile.path)).length, 0, 0⟩,
        idx.filter (fun e => e.path ∈ env.files.map SourceFile.path))
    refine ⟨(env.files.foldl
        (processFile embed env.fingerprint env.chunker)
        (⟨0, 0, (idx.filter
            (fun e => e.path ∉ env.files.map SourceFile.path)).length, 0, 0⟩,
          idx.filter (fun e => e.path ∈ env.files.map SourceFile.path))).1,
      (env.files.foldl (processFile embed env.fingerprint env.chunker)
        (⟨0, 0, (idx.filter
            (fun e => e.path ∉ env.files.map SourceFile.path)).length, 0, 0⟩,
          idx.filter (fun e => e.path ∈ env.files.map SourceFile.path))).2,
      ?_, ?_, ?_, ?_⟩
    · simp [reindex, hp]
    · simpa using hsum
    · simpa using hfail
    · simpa using hrem

/-- C8 witness: one readable and one unreadable file against an index
holding one entry of a vanished path, with a provider that embeds
everything. -/
theorem claim_c8_reindex_summary_witness :
    (ReindexEnv.mk
        [SourceFile.readable "a.py" "def f", SourceFile.unreadable "b.py"]
        (fun t => t.length) (fun p t => [⟨p, 1, 1, t⟩])
        (some (fun _ => some [1]))).provider =
      some (fun _ => some [1]) ∧
    ∃ s idx', reindex (ReindexEnv.mk
        [SourceFile.readable "a.py" "def f", SourceFile.unreadable "b.py"]
        (fun t => t.length) (fun p t => [⟨p, 1, 1, t⟩])
        (some (fun _ => some [1])))
        [⟨"gone.py", 1, 2, 7, [1], 9⟩] = Except.ok (s, idx') ∧
      s.added + s.updated + s.unchanged = 1 ∧
      1 ≤ s.failed ∧
      s.removed = 1 := by
  refine ⟨rfl, ?_⟩
  obtain ⟨s, idx', hok, hsum, hfail, hrem⟩ :=
    (claim_c8_reindex_summary (ReindexEnv.mk
        [SourceFile.readable "a.py" "def f", SourceFile.unreadable "b.py"]
        (fun t => t.length) (fun p t => [⟨p, 1, 1, t⟩])
        (some (fun _ => some [1])))
      [⟨"gone.py", 1, 2, 7, [1], 9⟩]).2 (fun _ => some [1]) rfl
  exact ⟨s, idx', hok, by simpa using hsum, by simpa using hfail,
    by simpa using hrem⟩

end Autoctx
